import Mathlib

/-
Verification development for the Notion static-site generator core
(`src/index.ts` of the ssg repository).  The pure transformation pipeline
(rich-text rendering, block processing, title/metadata extraction,
slugification) is shallowly embedded here.  JavaScript strings are modelled
as `List Char`; JavaScript truthiness of optional strings/objects is made
explicit through small helper functions; `toLowerCase`, `trim` and the
regular expressions of `slugify` are modelled over the ASCII/Unicode code
points they inspect.
-/

namespace SSG

/-- JavaScript strings are modelled as lists of characters. -/
abbrev Str := List Char

/-- Evaluation of the JavaScript expression `a || b` where `a` is a possibly
absent string: an absent (`undefined`/`null`) or empty string is falsy, in
which case the default `b` is returned. -/
def jsOrStr (a : Option Str) (b : Str) : Str :=
  match a with
  | some s => if s = [] then b else s
  | none => b

/-- The backtick character (code point 96), used for inline-code markup and
code fences. -/
def btick : Char := Char.ofNat 96

/-- Singleton backtick string. -/
def btickS : Str := [btick]

/-- Style annotations carried by a rich-text span (source interface
`RichText.annotations`). -/
structure Annotations where
  bold : Bool
  italic : Bool
  strikethrough : Bool
  underline : Bool
  code : Bool
  color : Str
deriving DecidableEq

/-- The empty annotations object: every flag reads as falsy, as happens in
the source when `text.annotations` is absent and `{}` is used instead. -/
def noAnnotations : Annotations :=
  { bold := false, italic := false, strikethrough := false,
    underline := false, code := false, color := [] }

/-- One rich-text span (source interface `RichText`).  `plain_text` may be
absent, in which case the source substitutes `""`. -/
structure RichText where
  type : Str
  plain_text : Option Str
  annotations : Option Annotations
deriving DecidableEq

/-- Rendering of a single span, following the body of the source loop in
`extractRichText`: start from `text.plain_text || ""` and successively
re-wrap the accumulator — bold first, then italic, then strikethrough,
then code last (so the bold delimiters end up innermost and the backticks
outermost). -/
def renderSpan (t : RichText) : Str :=
  let content0 := jsOrStr t.plain_text []
  let a := t.annotations.getD noAnnotations
  let c1 := if a.bold then "**".data ++ content0 ++ "**".data else content0
  let c2 := if a.italic then "*".data ++ c1 ++ "*".data else c1
  let c3 := if a.strikethrough then "~~".data ++ c2 ++ "~~".data else c2
  if a.code then btickS ++ c3 ++ btickS else c3

/-- Source function `extractRichText`: render each span and concatenate the
results with no separator (`parts.join("")`). -/
def extractRichText (spans : List RichText) : Str :=
  (spans.map renderSpan).flatten

/-- An uploaded-file or externally hosted media object; only its `url`
field is read by the source. -/
structure FileRef where
  url : Option Str
deriving DecidableEq

/-- A callout icon; only its `emoji` field is read by the source. -/
structure IconRef where
  emoji : Option Str
deriving DecidableEq

/-- The payload sub-object of a block (the fields of `block[blockType]`
that the source reads).  `ext` models the source's `external` field for
externally hosted images. -/
structure BlockData where
  rich_text : Option (List RichText)
  checked : Bool
  language : Option Str
  caption : Option (List RichText)
  file : Option FileRef
  ext : Option FileRef
  icon : Option IconRef
deriving DecidableEq

/-- The empty payload object, used when `block[blockType]` is absent
(`block[blockType] || {}` in the source). -/
def emptyBlockData : BlockData :=
  { rich_text := none, checked := false, language := none, caption := none,
    file := none, ext := none, icon := none }

/-- One content block (source interface `Block`).  `payload` models
`block[block.type]`, the sub-object named by the block's own type tag. -/
structure Block where
  id : Str
  type : Str
  payload : Option BlockData
deriving DecidableEq

/-- The markdown fragment contributed by one block: the body of the
`switch` statement inside the source's `processBlocks` loop.  The final
`else` arm models the absence of a matching `case` (an unrecognized type
tag falls through the `switch` and pushes nothing). -/
def renderBlock (b : Block) : Str :=
  let blockData := b.payload.getD emptyBlockData
  if b.type = "paragraph".data then
    extractRichText (blockData.rich_text.getD []) ++ "\n\n".data
  else if b.type = "heading_1".data then
    "# ".data ++ extractRichText (blockData.rich_text.getD []) ++ "\n\n".data
  else if b.type = "heading_2".data then
    "## ".data ++ extractRichText (blockData.rich_text.getD []) ++ "\n\n".data
  else if b.type = "heading_3".data then
    "### ".data ++ extractRichText (blockData.rich_text.getD []) ++ "\n\n".data
  else if b.type = "bulleted_list_item".data then
    "* ".data ++ extractRichText (blockData.rich_text.getD []) ++ "\n".data
  else if b.type = "numbered_list_item".data then
    "1. ".data ++ extractRichText (blockData.rich_text.getD []) ++ "\n".data
  else if b.type = "to_do".data then
    "- [".data ++ (if blockData.checked then "x".data else " ".data) ++
      "] ".data ++ extractRichText (blockData.rich_text.getD []) ++ "\n".data
  else if b.type = "code".data then
    btickS ++ btickS ++ btickS ++ jsOrStr blockData.language [] ++ "\n".data ++
      extractRichText (blockData.rich_text.getD []) ++ "\n".data ++
      btickS ++ btickS ++ btickS ++ "\n\n".data
  else if b.type = "image".data then
    let caption := extractRichText (blockData.caption.getD [])
    let url := jsOrStr (blockData.file.bind FileRef.url)
      (jsOrStr (blockData.ext.bind FileRef.url) [])
    if url = [] then []
    else "![".data ++ caption ++ "](".data ++ url ++ ")".data ++ "\n\n".data
  else if b.type = "quote".data then
    "> ".data ++ extractRichText (blockData.rich_text.getD []) ++ "\n\n".data
  else if b.type = "divider".data then
    "---\n\n".data
  else if b.type = "callout".data then
    "> ".data ++ jsOrStr (blockData.icon.bind IconRef.emoji) [] ++ " ".data ++
      extractRichText (blockData.rich_text.getD []) ++ "\n\n".data
  else
    []

/-- Source function `processBlocks`: iterate the blocks in order, collect
each block's fragment and concatenate them (`content.join("")`). -/
def processBlocks (blocks : List Block) : Str :=
  (blocks.map renderBlock).flatten

/-- A `select` option or `multi_select` item; only `name` is read. -/
structure SelectVal where
  name : Option Str
deriving DecidableEq

/-- A `date` property payload; only `start` is read. -/
structure DateVal where
  start : Option Str
deriving DecidableEq

/-- A property-bag value.  The source inspects the declared `type` tag and
then the same-named payload field, each of which may be absent or null in
the incoming JSON (the source guards on their truthiness). -/
structure PropValue where
  type : Str
  title : Option (List RichText)
  select : Option SelectVal
  multi_select : Option (List SelectVal)
  date : Option DateVal
deriving DecidableEq

/-- A page record as consumed by `extractTitle` / `extractMetadata`.  The
property bag is the ordered list of the page's `properties` entries. -/
structure Page where
  created_time : Option Str
  last_edited_time : Option Str
  url : Option Str
  properties : Option (List (Str × PropValue))
deriving DecidableEq

/-- Property access `properties[k]` on the property bag: the value of the
entry named `k`, if any (JavaScript object keys are unique, so the first
match is the match). -/
def lookupProp (props : List (Str × PropValue)) (k : Str) : Option PropValue :=
  (props.find? (fun p => p.1 = k)).map (fun p => p.2)

/-- Evaluation of `properties.Name || properties.Title`: a present property
value is an object, hence truthy. -/
def jsOrProp (a b : Option PropValue) : Option PropValue :=
  match a with
  | some v => some v
  | none => b

/-- Source function `extractTitle`: read `properties.Name || properties.Title`;
if the chosen property exists and its `title` field is truthy, concatenate
the spans' `plain_text || ""`; otherwise return `"Untitled"`. -/
def extractTitle (page : Page) : Str :=
  let properties := page.properties.getD []
  let titleProp := jsOrProp (lookupProp properties "Name".data)
    (lookupProp properties "Title".data)
  match titleProp with
  | some tp =>
    match tp.title with
    | some parts => (parts.map (fun part => jsOrStr part.plain_text [])).flatten
    | none => "Untitled".data
  | none => "Untitled".data

/-- A value stored in the metadata record: either a string or a list of
strings. -/
inductive MetaValue where
  | str : Str → MetaValue
  | list : List Str → MetaValue
deriving DecidableEq

/-- ASCII lower-casing of one character, modelling
`String.prototype.toLowerCase` on the code points the pipeline inspects
(`A`–`Z` map to `a`–`z`; every other character is unchanged). -/
def jsToLowerChar (c : Char) : Char :=
  if 65 ≤ c.toNat ∧ c.toNat ≤ 90 then Char.ofNat (c.toNat + 32) else c

/-- `text.toLowerCase()` over the list-of-characters model. -/
def toLowerStr (s : Str) : Str := s.map jsToLowerChar

/-- The dynamic metadata entries contributed by one property-bag entry:
the body of the `if`/`else if` chain inside `extractMetadata`'s loop.  A
`select` / `multi_select` / `date` declared type with a truthy same-named
payload writes one field keyed by the lower-cased property name; any other
entry writes nothing. -/
def propEntries (key : Str) (prop : PropValue) : List (Str × MetaValue) :=
  if prop.type = "select".data then
    match prop.select with
    | some sv => [(toLowerStr key, MetaValue.str (jsOrStr sv.name []))]
    | none => []
  else if prop.type = "multi_select".data then
    match prop.multi_select with
    | some items =>
      [(toLowerStr key, MetaValue.list (items.map (fun item => jsOrStr item.name [])))]
    | none => []
  else if prop.type = "date".data then
    match prop.date with
    | some dv => [(toLowerStr key, MetaValue.str (jsOrStr dv.start []))]
    | none => []
  else []

/-- Source function `extractMetadata`: the metadata object is modelled as
the ordered list of field assignments made to it — first the three fixed
fields, then one entry per qualifying property-bag entry, in bag order.
Reading a field of the finished object is `mget` (the last assignment to a
key wins, as in JavaScript). -/
def extractMetadata (page : Page) : List (Str × MetaValue) :=
  let properties := page.properties.getD []
  [("createdTime".data, MetaValue.str (jsOrStr page.created_time [])),
   ("lastEditedTime".data, MetaValue.str (jsOrStr page.last_edited_time [])),
   ("url".data, MetaValue.str (jsOrStr page.url []))] ++
  (properties.map (fun kp => propEntries kp.1 kp.2)).flatten

/-- Reading field `k` of the finished metadata object: the value of the
last assignment to `k`, if any. -/
def mget (m : List (Str × MetaValue)) (k : Str) : Option MetaValue :=
  (m.reverse.find? (fun p => p.1 = k)).map (fun p => p.2)

/-- Membership of a code point in the JavaScript regular-expression class
`\s` (ECMAScript WhiteSpace and LineTerminator), as used by `trim` and the
`slugify` regular expressions. -/
def jsIsSpace (c : Char) : Bool :=
  let n := c.toNat
  n = 32 || n = 9 || n = 10 || n = 11 || n = 12 || n = 13 || n = 160 ||
  n = 0x1680 || (0x2000 ≤ n && n ≤ 0x200a) || n = 0x2028 || n = 0x2029 ||
  n = 0x202f || n = 0x205f || n = 0x3000 || n = 0xfeff

/-- Membership in the JavaScript regular-expression class `\w`
(`[A-Za-z0-9_]`). -/
def jsIsWordChar (c : Char) : Bool :=
  let n := c.toNat
  (97 ≤ n && n ≤ 122) || (65 ≤ n && n ≤ 90) || (48 ≤ n && n ≤ 57) || n = 95

/-- `text.trim()`: drop `\s` characters from both ends. -/
def trimStr (s : Str) : Str :=
  ((s.dropWhile jsIsSpace).reverse.dropWhile jsIsSpace).reverse

/-- A character kept by `replace(/[^\w\s-]/g, "")`: word character,
whitespace, or hyphen. -/
def keepChar (c : Char) : Bool := jsIsWordChar c || jsIsSpace c || c.toNat = 45

/-- A character matched by the class `[\s_-]` of
`replace(/[\s_-]+/g, "-")`. -/
def isSep (c : Char) : Bool := jsIsSpace c || c.toNat = 95 || c.toNat = 45

/-- Worker for `replace(/[\s_-]+/g, "-")`: each maximal run of separator
characters becomes a single hyphen.  The flag records whether the previous
character belonged to a separator run still being replaced. -/
def collapseGo : Bool → Str → Str
  | _, [] => []
  | prev, c :: rest =>
    if isSep c then
      if prev then collapseGo true rest else '-' :: collapseGo true rest
    else c :: collapseGo false rest

/-- `replace(/[\s_-]+/g, "-")`. -/
def collapseSeps (s : Str) : Str := collapseGo false s

/-- `replace(/^-+|-+$/g, "")`: strip the maximal hyphen runs at both
ends. -/
def dropDashEnds (s : Str) : Str :=
  ((s.dropWhile (fun c => c = '-')).reverse.dropWhile (fun c => c = '-')).reverse

/-- Source function `slugify`: lower-case, trim, delete characters outside
`[\w\s-]`, collapse separator runs to single hyphens, strip hyphens from
both ends. -/
def slugify (s : Str) : Str :=
  dropDashEnds (collapseSeps ((trimStr (toLowerStr s)).filter keepChar))

/-- Absence of the adjacent pair `--` anywhere in a string. -/
def noDD : Str → Bool
  | [] => true
  | [_] => true
  | a :: b :: rest => !(a == '-' && b == '-') && noDD (b :: rest)

/-- Characters that can appear in a slug: an ASCII lower-case letter, a
digit, or a hyphen. -/
def outChar (c : Char) : Bool :=
  (97 ≤ c.toNat && c.toNat ≤ 122) || (48 ≤ c.toNat && c.toNat ≤ 57) ||
  c.toNat = 45

lemma char_eq_of_toNat {c d : Char} (h : c.toNat = d.toNat) : c = d :=
  Char.eq_of_val_eq (UInt32.ext h)

lemma toNat_ofNat_add32 {n : Nat} (h1 : 65 ≤ n) (h2 : n ≤ 90) :
    (Char.ofNat (n + 32)).toNat = n + 32 := by
  have hv : Nat.isValidChar (n + 32) := by left; omega
  rw [Char.ofNat, dif_pos hv]
  rfl

lemma jsToLowerChar_cases (c : Char) :
    (65 ≤ c.toNat ∧ c.toNat ≤ 90 ∧ (jsToLowerChar c).toNat = c.toNat + 32) ∨
    (jsToLowerChar c = c ∧ ¬(65 ≤ c.toNat ∧ c.toNat ≤ 90)) := by
  unfold jsToLowerChar
  by_cases h : 65 ≤ c.toNat ∧ c.toNat ≤ 90
  · left
    refine ⟨h.1, h.2, ?_⟩
    rw [if_pos h]
    exact toNat_ofNat_add32 h.1 h.2
  · right
    exact ⟨if_neg h, h⟩

lemma jsToLowerChar_not_upper (c : Char) :
    ¬(65 ≤ (jsToLowerChar c).toNat ∧ (jsToLowerChar c).toNat ≤ 90) := by
  rcases jsToLowerChar_cases c with ⟨h1, h2, h3⟩ | ⟨h1, h2⟩
  · rw [h3]; omega
  · rw [h1]; exact h2

lemma toLowerStr_no_upper {s : Str} {c : Char} (h : c ∈ toLowerStr s) :
    ¬(65 ≤ c.toNat ∧ c.toNat ≤ 90) := by
  rw [toLowerStr, List.mem_map] at h
  obtain ⟨d, _, rfl⟩ := h
  exact jsToLowerChar_not_upper d

lemma mem_trimStr {s : Str} {c : Char} (h : c ∈ trimStr s) : c ∈ s := by
  rw [trimStr, List.mem_reverse] at h
  have h1 := (List.dropWhile_sublist jsIsSpace).mem h
  rw [List.mem_reverse] at h1
  exact (List.dropWhile_sublist jsIsSpace).mem h1

lemma head?_dropWhile_false {p : Char → Bool} {l : Str} {c : Char}
    (h : (l.dropWhile p).head? = some c) : p c = false := by
  induction l with
  | nil => simp [List.dropWhile] at h
  | cons x xs ih =>
    rw [List.dropWhile] at h
    by_cases hp : p x
    · rw [hp] at h; exact ih h
    · simp only [Bool.not_eq_true] at hp
      rw [hp] at h
      simp only [List.head?_cons, Option.some.injEq] at h
      rw [← h]
      exact hp

lemma collapseGo_true_head {l : Str} {c : Char}
    (h : (collapseGo true l).head? = some c) : isSep c = false := by
  induction l with
  | nil => simp [collapseGo] at h
  | cons x xs ih =>
    rw [collapseGo] at h
    by_cases hx : isSep x
    · rw [if_pos hx, if_pos rfl] at h
      exact ih h
    · simp only [Bool.not_eq_true] at hx
      rw [if_neg (by simp [hx])] at h
      simp only [List.head?_cons, Option.some.injEq] at h
      rw [← h]
      exact hx

lemma noDD_cons {x : Char} {m : Str} (h : noDD (x :: m) = true) :
    noDD m = true := by
  cases m with
  | nil => rfl
  | cons y r =>
    rw [noDD, Bool.and_eq_true] at h
    exact h.2

lemma collapseGo_noDD (l : Str) : ∀ b, noDD (collapseGo b l) = true := by
  induction l with
  | nil => intro b; rfl
  | cons x xs ih =>
    intro b
    by_cases hx : isSep x
    · cases b with
      | true =>
        rw [collapseGo, if_pos hx, if_pos rfl]
        exact ih true
      | false =>
        rw [collapseGo, if_pos hx, if_neg (by simp)]
        cases hm : collapseGo true xs with
        | nil => rfl
        | cons y ys =>
          have hy : isSep y = false := collapseGo_true_head (by rw [hm]; rfl)
          have hy2 : (y == '-') = false := by
            by_cases e : y = '-'
            · subst e; simp [isSep] at hy
            · simp [e]
          rw [noDD, hy2]
          have := ih true
          rw [hm] at this
          simp [this]
    · rw [collapseGo, if_neg (by simp [hx])]
      cases hm : collapseGo false xs with
      | nil => rfl
      | cons y ys =>
        have hx2 : (x == '-') = false := by
          by_cases e : x = '-'
          · subst e; simp [isSep] at hx
          · simp [e]
        rw [noDD, hx2]
        have := ih false
        rw [hm] at this
        simp [this]

lemma collapseGo_chars (l : Str) :
    ∀ b c, c ∈ collapseGo b l → c = '-' ∨ (c ∈ l ∧ isSep c = false) := by
  induction l with
  | nil => intro b c h; simp [collapseGo] at h
  | cons x xs ih =>
    intro b c h
    by_cases hx : isSep x
    · rw [collapseGo, if_pos hx] at h
      by_cases hb : b
      · subst hb
        rw [if_pos rfl] at h
        rcases ih true c h with h1 | ⟨h1, h2⟩
        · exact Or.inl h1
        · exact Or.inr ⟨List.mem_cons_of_mem x h1, h2⟩
      · simp only [Bool.not_eq_true] at hb
        subst hb
        rw [if_neg (by simp)] at h
        rcases List.mem_cons.mp h with h1 | h1
        · exact Or.inl h1
        · rcases ih true c h1 with h2 | ⟨h2, h3⟩
          · exact Or.inl h2
          · exact Or.inr ⟨List.mem_cons_of_mem x h2, h3⟩
    · rw [collapseGo, if_neg (by simp [hx])] at h
      rcases List.mem_cons.mp h with h1 | h1
      · rw [h1]
        simp only [Bool.not_eq_true] at hx
        exact Or.inr ⟨List.mem_cons_self x xs, hx⟩
      · rcases ih false c h1 with h2 | ⟨h2, h3⟩
        · exact Or.inl h2
        · exact Or.inr ⟨List.mem_cons_of_mem x h2, h3⟩

lemma collapseGo_id (l : Str) :
    ∀ b, (∀ c ∈ l, isSep c = true → c = '-') → noDD l = true →
    (b = true → l.head? ≠ some '-') → collapseGo b l = l := by
  induction l with
  | nil => intro b _ _ _; rfl
  | cons x xs ih =>
    intro b hsep hdd hb
    by_cases hx : isSep x
    · have hx2 : x = '-' := hsep x (List.mem_cons_self x xs) hx
      cases b with
      | true =>
        exfalso
        refine hb rfl ?_
        rw [hx2]
        rfl
      | false =>
        rw [collapseGo, if_pos hx, if_neg (by simp), hx2]
        congr 1
        apply ih true
        · exact fun c hc h => hsep c (List.mem_cons_of_mem x hc) h
        · exact noDD_cons hdd
        · intro _
          cases xs with
          | nil => simp
          | cons y ys =>
            subst hx2
            rw [noDD, Bool.and_eq_true] at hdd
            intro hcon
            simp only [List.head?_cons, Option.some.injEq] at hcon
            subst hcon
            simp at hdd
    · rw [collapseGo, if_neg (by simp [hx])]
      congr 1
      apply ih false
      · exact fun c hc h => hsep c (List.mem_cons_of_mem x hc) h
      · exact noDD_cons hdd
      · intro h; exact absurd h (by simp)

lemma noDD_append_right {a b : Str} (h : noDD (a ++ b) = true) :
    noDD b = true := by
  induction a with
  | nil => exact h
  | cons x xs ih =>
    rw [List.cons_append] at h
    exact ih (noDD_cons h)

lemma noDD_append_left {a b : Str} (h : noDD (a ++ b) = true) :
    noDD a = true := by
  induction a with
  | nil => rfl
  | cons x xs ih =>
    cases xs with
    | nil => rfl
    | cons y ys =>
      rw [List.cons_append, List.cons_append] at h
      rw [noDD, Bool.and_eq_true] at h ⊢
      refine ⟨h.1, ?_⟩
      exact ih (by rw [List.cons_append]; exact h.2)

lemma takeWhile_all_dash {l : Str} {c : Char}
    (h : c ∈ l.takeWhile (fun d => d = '-')) : c = '-' := by
  have := List.mem_takeWhile_imp h
  simpa using this

lemma dropDashEnds_decomp (l : Str) :
    ∃ t1 t2, (∀ c ∈ t1, c = '-') ∧ (∀ c ∈ t2, c = '-') ∧
      l = t1 ++ dropDashEnds l ++ t2 := by
  set d : Char → Bool := fun c => c = '-' with hd
  set a : Str := l.dropWhile d with ha
  refine ⟨l.takeWhile d, (a.reverse.takeWhile d).reverse, ?_, ?_, ?_⟩
  · intro c hc; exact takeWhile_all_dash hc
  · intro c hc
    rw [List.mem_reverse] at hc
    exact takeWhile_all_dash hc
  · have h1 : l.takeWhile d ++ a = l := List.takeWhile_append_dropWhile d l
    have h2 : a.reverse.takeWhile d ++ a.reverse.dropWhile d = a.reverse :=
      List.takeWhile_append_dropWhile d a.reverse
    rw [dropDashEnds]
    calc l = l.takeWhile d ++ a := h1.symm
    _ = l.takeWhile d ++ (a.reverse.takeWhile d ++ a.reverse.dropWhile d).reverse := by
        rw [h2, List.reverse_reverse]
    _ = l.takeWhile d ++ ((a.reverse.dropWhile d).reverse ++ (a.reverse.takeWhile d).reverse) := by
        rw [List.reverse_append]
    _ = l.takeWhile d ++ (a.reverse.dropWhile d).reverse ++ (a.reverse.takeWhile d).reverse := by
        rw [List.append_assoc]

lemma mem_dropDashEnds {l : Str} {c : Char} (h : c ∈ dropDashEnds l) :
    c ∈ l := by
  rw [dropDashEnds, List.mem_reverse] at h
  have h1 := (List.dropWhile_sublist _).mem h
  rw [List.mem_reverse] at h1
  exact (List.dropWhile_sublist _).mem h1

lemma dropDashEnds_head {l : Str} :
    (dropDashEnds l).head? ≠ some '-' := by
  intro hcon
  set d : Char → Bool := fun c => c = '-' with hd
  set a : Str := l.dropWhile d with ha
  set m : Str := a.reverse.dropWhile d with hm
  have hres : dropDashEnds l = m.reverse := rfl
  rw [hres] at hcon
  cases he : m.reverse with
  | nil => rw [he] at hcon; simp at hcon
  | cons y ys =>
    rw [he] at hcon
    simp only [List.head?_cons, Option.some.injEq] at hcon
    subst hcon
    have h2 : a.reverse.takeWhile d ++ m = a.reverse :=
      List.takeWhile_append_dropWhile d a.reverse
    have h3 : a = m.reverse ++ (a.reverse.takeWhile d).reverse := by
      calc a = a.reverse.reverse := (List.reverse_reverse a).symm
      _ = (a.reverse.takeWhile d ++ m).reverse := by rw [h2]
      _ = m.reverse ++ (a.reverse.takeWhile d).reverse := by rw [List.reverse_append]
    rw [he, List.cons_append] at h3
    have h4 : a.head? = some '-' := by rw [h3]; rfl
    have h5 : d '-' = false := head?_dropWhile_false h4
    simp [hd] at h5

lemma dropDashEnds_last {l : Str} :
    (dropDashEnds l).getLast? ≠ some '-' := by
  intro hcon
  set d : Char → Bool := fun c => c = '-' with hd
  set a : Str := l.dropWhile d with ha
  set m : Str := a.reverse.dropWhile d with hm
  have hres : dropDashEnds l = m.reverse := rfl
  rw [hres, List.getLast?_reverse] at hcon
  have h5 : d '-' = false := head?_dropWhile_false hcon
  simp [hd] at h5

lemma mem_of_head? {l : Str} {c : Char} (h : l.head? = some c) : c ∈ l := by
  cases l with
  | nil => simp at h
  | cons x xs =>
    simp only [List.head?_cons, Option.some.injEq] at h
    rw [← h]
    exact List.mem_cons_self x xs

lemma slug_chars {s : Str} {c : Char} (h : c ∈ slugify s) : outChar c = true := by
  rw [slugify] at h
  have h1 := mem_dropDashEnds h
  rw [collapseSeps] at h1
  rcases collapseGo_chars _ false c h1 with h2 | ⟨h2, h3⟩
  · rw [h2]; rfl
  · rw [List.mem_filter] at h2
    obtain ⟨h4, h5⟩ := h2
    have h6 := toLowerStr_no_upper (mem_trimStr h4)
    have hsp : jsIsSpace c = false := by
      by_contra hq
      simp only [Bool.not_eq_false] at hq
      rw [isSep, hq] at h3
      simp at h3
    have h95 : c.toNat ≠ 95 := by
      intro hq
      rw [isSep, hq] at h3
      simp at h3
    have h45 : c.toNat ≠ 45 := by
      intro hq
      rw [isSep, hq] at h3
      simp at h3
    simp only [keepChar, jsIsWordChar, jsIsSpace, Bool.or_eq_true,
      Bool.and_eq_true, decide_eq_true_eq] at h5
    simp only [jsIsSpace, Bool.or_eq_false_iff, Bool.and_eq_false_iff,
      decide_eq_false_iff_not] at hsp
    simp only [outChar, Bool.or_eq_true, Bool.and_eq_true, decide_eq_true_eq]
    omega

lemma slug_noDD (s : Str) : noDD (slugify s) = true := by
  obtain ⟨t1, t2, _, _, hdec⟩ :=
    dropDashEnds_decomp (collapseSeps ((trimStr (toLowerStr s)).filter keepChar))
  have h := collapseGo_noDD ((trimStr (toLowerStr s)).filter keepChar) false
  rw [collapseSeps] at hdec
  rw [hdec] at h
  rw [slugify]
  exact noDD_append_right (noDD_append_left h)

lemma slug_head (s : Str) : (slugify s).head? ≠ some '-' := by
  rw [slugify]
  exact dropDashEnds_head

lemma slug_last (s : Str) : (slugify s).getLast? ≠ some '-' := by
  rw [slugify]
  exact dropDashEnds_last

lemma map_eq_self_of {f : Char → Char} {l : Str} (h : ∀ c ∈ l, f c = c) :
    l.map f = l := by
  induction l with
  | nil => rfl
  | cons x xs ih =>
    rw [List.map_cons, h x (List.mem_cons_self x xs),
      ih (fun c hc => h c (List.mem_cons_of_mem x hc))]

lemma dropWhile_eq_self_of_head {p : Char → Bool} {l : Str}
    (h : ∀ c, l.head? = some c → p c = false) : l.dropWhile p = l := by
  cases l with
  | nil => rfl
  | cons x xs =>
    rw [List.dropWhile_cons, if_neg (by simp [h x rfl])]

lemma outChar_lower_id {c : Char} (h : outChar c = true) :
    jsToLowerChar c = c := by
  simp only [outChar, Bool.or_eq_true, Bool.and_eq_true, decide_eq_true_eq] at h
  rw [jsToLowerChar, if_neg (by omega)]

lemma outChar_not_space {c : Char} (h : outChar c = true) :
    jsIsSpace c = false := by
  simp only [outChar, Bool.or_eq_true, Bool.and_eq_true, decide_eq_true_eq] at h
  simp only [jsIsSpace, Bool.or_eq_false_iff, Bool.and_eq_false_iff,
    decide_eq_false_iff_not]
  omega

lemma outChar_keep {c : Char} (h : outChar c = true) : keepChar c = true := by
  simp only [outChar, Bool.or_eq_true, Bool.and_eq_true, decide_eq_true_eq] at h
  simp only [keepChar, jsIsWordChar, Bool.or_eq_true, Bool.and_eq_true,
    decide_eq_true_eq]
  omega

lemma outChar_sep_dash {c : Char} (h : outChar c = true)
    (hs : isSep c = true) : c = '-' := by
  apply char_eq_of_toNat
  show c.toNat = 45
  simp only [outChar, Bool.or_eq_true, Bool.and_eq_true, decide_eq_true_eq] at h
  simp only [isSep, jsIsSpace, Bool.or_eq_true, Bool.and_eq_true,
    decide_eq_true_eq] at hs
  omega

lemma slug_fixpoint (o : Str) (hc : ∀ c ∈ o, outChar c = true)
    (hdd : noDD o = true) (hh : o.head? ≠ some '-')
    (hl : o.getLast? ≠ some '-') : slugify o = o := by
  have h1 : toLowerStr o = o :=
    map_eq_self_of (fun c hc2 => outChar_lower_id (hc c hc2))
  have h2 : trimStr o = o := by
    rw [trimStr]
    have e1 : o.dropWhile jsIsSpace = o := dropWhile_eq_self_of_head
      (fun c hc2 => outChar_not_space (hc c (mem_of_head? hc2)))
    rw [e1]
    have e2 : o.reverse.dropWhile jsIsSpace = o.reverse := dropWhile_eq_self_of_head
      (fun c hc2 => outChar_not_space (hc c (List.mem_reverse.mp (mem_of_head? hc2))))
    rw [e2, List.reverse_reverse]
  have h3 : o.filter keepChar = o :=
    List.filter_eq_self.mpr (fun c hc2 => outChar_keep (hc c hc2))
  have h4 : collapseSeps o = o := by
    rw [collapseSeps]
    exact collapseGo_id o false
      (fun c hc2 hs => outChar_sep_dash (hc c hc2) hs) hdd
      (fun hcon => absurd hcon (by decide))
  have h5 : dropDashEnds o = o := by
    rw [dropDashEnds]
    have e1 : o.dropWhile (fun c => c = '-') = o := dropWhile_eq_self_of_head
      (fun c hc2 => by
        have : c ≠ '-' := by
          intro he
          rw [he] at hc2
          exact hh hc2
        simp [this])
    rw [e1]
    have e2 : o.reverse.dropWhile (fun c => c = '-') = o.reverse :=
      dropWhile_eq_self_of_head (fun c hc2 => by
        rw [List.head?_reverse] at hc2
        have : c ≠ '-' := by
          intro he
          rw [he] at hc2
          exact hl hc2
        simp [this])
    rw [e2, List.reverse_reverse]
  rw [slugify, h1, h2, h3, h4, h5]

/-- Wrapping a span's text in the nesting order asserted by the spec:
bold outermost, then italic, then strikethrough, then code innermost.
Modelled from the claim's words, for comparison with `renderSpan`. -/
def wrapClaimOrder (a : Annotations) (txt : Str) : Str :=
  let s1 := if a.code then btickS ++ txt ++ btickS else txt
  let s2 := if a.strikethrough then "~~".data ++ s1 ++ "~~".data else s1
  let s3 := if a.italic then "*".data ++ s2 ++ "*".data else s2
  if a.bold then "**".data ++ s3 ++ "**".data else s3

/-- Wrapping a span's text in the reversed nesting order: bold innermost,
then italic, then strikethrough, then code outermost.  This is the
amended claim's order. -/
def wrapCodeOutermost (a : Annotations) (txt : Str) : Str :=
  let s1 := if a.bold then "**".data ++ txt ++ "**".data else txt
  let s2 := if a.italic then "*".data ++ s1 ++ "*".data else s1
  let s3 := if a.strikethrough then "~~".data ++ s2 ++ "~~".data else s2
  if a.code then btickS ++ s3 ++ btickS else s3

/-- A span carrying both the bold and the code flag, on which the two
nesting orders produce different output. -/
def cexSpan : RichText :=
  { type := "text".data, plain_text := some "t".data,
    annotations := some { bold := true, italic := false, strikethrough := false,
                          underline := false, code := true, color := [] } }

/-- The type tags with a `case` arm in the `switch` of `processBlocks`. -/
def recognizedType (t : Str) : Bool :=
  t = "paragraph".data || t = "heading_1".data || t = "heading_2".data ||
  t = "heading_3".data || t = "bulleted_list_item".data ||
  t = "numbered_list_item".data || t = "to_do".data || t = "code".data ||
  t = "image".data || t = "quote".data || t = "divider".data ||
  t = "callout".data

lemma renderBlock_unrecognized {b : Block} (h : recognizedType b.type = false) :
    renderBlock b = [] := by
  simp only [recognizedType, Bool.or_eq_false_iff, decide_eq_false_iff_not] at h
  obtain ⟨⟨⟨⟨⟨⟨⟨⟨⟨⟨⟨h1, h2⟩, h3⟩, h4⟩, h5⟩, h6⟩, h7⟩, h8⟩, h9⟩, h10⟩, h11⟩, h12⟩ := h
  simp [renderBlock, h1, h2, h3, h4, h5, h6, h7, h8, h9, h10, h11, h12]

lemma processBlocks_cons (b : Block) (bs : List Block) :
    processBlocks (b :: bs) = renderBlock b ++ processBlocks bs := by
  rw [processBlocks, List.map_cons, List.flatten_cons]
  rfl

lemma processBlocks_filter (blocks : List Block) :
    processBlocks blocks =
      processBlocks (blocks.filter (fun b => recognizedType b.type)) := by
  induction blocks with
  | nil => rfl
  | cons b bs ih =>
    rw [processBlocks_cons, List.filter_cons]
    by_cases hb : recognizedType b.type
    · rw [if_pos hb, processBlocks_cons, ih]
    · simp only [Bool.not_eq_true] at hb
      rw [if_neg (by simp [hb]), renderBlock_unrecognized hb,
        List.nil_append, ih]

lemma renderBlock_numbered {b : Block} (hb : b.type = "numbered_list_item".data) :
    renderBlock b = "1. ".data ++
      extractRichText ((b.payload.getD emptyBlockData).rich_text.getD []) ++
      "\n".data := by
  simp [renderBlock, hb]

lemma processBlocks_numbered (blocks : List Block)
    (hall : ∀ b ∈ blocks, b.type = "numbered_list_item".data) :
    processBlocks blocks = (blocks.map (fun b => "1. ".data ++
      extractRichText ((b.payload.getD emptyBlockData).rich_text.getD []) ++
      "\n".data)).flatten := by
  induction blocks with
  | nil => rfl
  | cons b bs ih =>
    rw [processBlocks_cons, List.map_cons, List.flatten_cons,
      renderBlock_numbered (hall b (List.mem_cons_self b bs)),
      ih (fun x hx => hall x (List.mem_cons_of_mem b hx))]

/-- External-URL half of the claim's image-URL resolution: a present,
non-empty external URL. -/
def resolveExt (bd : BlockData) : Option Str :=
  match bd.ext.bind FileRef.url with
  | some u => if u = [] then none else some u
  | none => none

/-- Image-URL resolution as the claim words it: the uploaded-file URL is
preferred, the external URL is the fallback, and an absent or empty URL is
not resolvable. -/
def resolveImageUrl (bd : BlockData) : Option Str :=
  match bd.file.bind FileRef.url with
  | some u => if u = [] then resolveExt bd else some u
  | none => resolveExt bd

lemma renderBlock_image {b : Block} (hb : b.type = "image".data) :
    renderBlock b =
      (match resolveImageUrl (b.payload.getD emptyBlockData) with
       | some u => "![".data ++
           extractRichText ((b.payload.getD emptyBlockData).caption.getD []) ++
           "](".data ++ u ++ ")".data ++ "\n\n".data
       | none => []) := by
  rcases hfo : (b.payload.getD emptyBlockData).file.bind FileRef.url with _ | u
  · rcases heo : (b.payload.getD emptyBlockData).ext.bind FileRef.url with _ | v
    · simp [renderBlock, hb, resolveImageUrl, resolveExt, jsOrStr, hfo, heo]
    · by_cases hv : v = [] <;>
        simp [renderBlock, hb, resolveImageUrl, resolveExt, jsOrStr, hfo, heo, hv]
  · by_cases hu : u = []
    · rcases heo : (b.payload.getD emptyBlockData).ext.bind FileRef.url with _ | v
      · simp [renderBlock, hb, resolveImageUrl, resolveExt, jsOrStr, hfo, heo, hu]
      · by_cases hv : v = [] <;>
          simp [renderBlock, hb, resolveImageUrl, resolveExt, jsOrStr, hfo, heo, hu, hv]
    · simp [renderBlock, hb, resolveImageUrl, resolveExt, jsOrStr, hfo, hu]

/-- Modelled from the claim C7 wording: EVERY property-bag entry of
declared type select / multi_select / date writes a metadata field keyed
by the lower-cased property name — with no payload-presence guard.  A
missing payload extracts the degenerate default (empty string or empty
list). -/
def claimEntries (key : Str) (prop : PropValue) : List (Str × MetaValue) :=
  if prop.type = "select".data then
    [(toLowerStr key, MetaValue.str (jsOrStr (prop.select.bind SelectVal.name) []))]
  else if prop.type = "multi_select".data then
    [(toLowerStr key,
      MetaValue.list ((prop.multi_select.getD []).map (fun item => jsOrStr item.name [])))]
  else if prop.type = "date".data then
    [(toLowerStr key, MetaValue.str (jsOrStr (prop.date.bind DateVal.start) []))]
  else []

/-- Metadata extraction exactly as claim C7 words it: the three fixed
fields, then one field per select / multi_select / date entry. -/
def extractMetadataClaim (page : Page) : List (Str × MetaValue) :=
  [("createdTime".data, MetaValue.str (jsOrStr page.created_time [])),
   ("lastEditedTime".data, MetaValue.str (jsOrStr page.last_edited_time [])),
   ("url".data, MetaValue.str (jsOrStr page.url []))] ++
  ((page.properties.getD []).map (fun kp => claimEntries kp.1 kp.2)).flatten

/-- The value a property-bag entry contributes per the amended claim: a
present select / multi_select / date payload yields a string, a list of
strings, or the date-start string; any other declared type, or a missing
payload, yields nothing. -/
def specValue (prop : PropValue) : Option MetaValue :=
  if prop.type = "select".data then
    prop.select.map (fun sv => MetaValue.str (jsOrStr sv.name []))
  else if prop.type = "multi_select".data then
    prop.multi_select.map (fun items =>
      MetaValue.list (items.map (fun item => jsOrStr item.name [])))
  else if prop.type = "date".data then
    prop.date.map (fun dv => MetaValue.str (jsOrStr dv.start []))
  else none

/-- Metadata extraction as the amended claim words it: the three fixed
fields, then one field per entry with an extractable value. -/
def extractMetadataAmended (page : Page) : List (Str × MetaValue) :=
  [("createdTime".data, MetaValue.str (jsOrStr page.created_time [])),
   ("lastEditedTime".data, MetaValue.str (jsOrStr page.last_edited_time [])),
   ("url".data, MetaValue.str (jsOrStr page.url []))] ++
  ((page.properties.getD []).map (fun kp =>
    match specValue kp.2 with
    | some v => [(toLowerStr kp.1, v)]
    | none => [])).flatten

lemma propEntries_eq_spec (key : Str) (prop : PropValue) :
    propEntries key prop =
      (match specValue prop with
       | some v => [(toLowerStr key, v)]
       | none => []) := by
  rw [propEntries, specValue]
  by_cases h1 : prop.type = "select".data
  · rw [if_pos h1, if_pos h1]
    cases prop.select <;> rfl
  · rw [if_neg h1, if_neg h1]
    by_cases h2 : prop.type = "multi_select".data
    · rw [if_pos h2, if_pos h2]
      cases prop.multi_select <;> rfl
    · rw [if_neg h2, if_neg h2]
      by_cases h3 : prop.type = "date".data
      · rw [if_pos h3, if_pos h3]
        cases prop.date <;> rfl
      · rw [if_neg h3, if_neg h3]

lemma find?_append_none {α : Type} (p : α → Bool) {l1 : List α} (l2 : List α)
    (h : ∀ x ∈ l1, p x = false) : (l1 ++ l2).find? p = l2.find? p := by
  induction l1 with
  | nil => rfl
  | cons a as ih =>
    rw [List.cons_append, List.find?_cons_of_neg]
    · exact ih (fun x hx => h x (List.mem_cons_of_mem a hx))
    · simp [h a (List.mem_cons_self a as)]

lemma dyn_keys_lower {page : Page} {kv : Str × MetaValue}
    (h : kv ∈ ((page.properties.getD []).map
      (fun kp => propEntries kp.1 kp.2)).flatten) :
    ∃ k0, kv.1 = toLowerStr k0 := by
  rw [List.mem_flatten] at h
  obtain ⟨l, hl, hkv⟩ := h
  rw [List.mem_map] at hl
  obtain ⟨kp, _, rfl⟩ := hl
  rw [propEntries_eq_spec] at hkv
  cases hs : specValue kp.2 with
  | none => rw [hs] at hkv; simp at hkv
  | some v =>
    rw [hs] at hkv
    simp only [List.mem_singleton] at hkv
    exact ⟨kp.1, by rw [hkv]⟩

lemma toLowerStr_ne_of_upper {key target : Str} {c : Char} (hc : c ∈ target)
    (h1 : 65 ≤ c.toNat) (h2 : c.toNat ≤ 90) : toLowerStr key ≠ target := by
  intro he
  rw [← he] at hc
  exact toLowerStr_no_upper hc ⟨h1, h2⟩

lemma mget_created (page : Page) :
    mget (extractMetadata page) "createdTime".data =
      some (MetaValue.str (jsOrStr page.created_time [])) := by
  simp only [extractMetadata, mget, List.reverse_append]
  rw [find?_append_none]
  · rfl
  · intro x hx
    rw [List.mem_reverse] at hx
    obtain ⟨k0, hk0⟩ := dyn_keys_lower hx
    have hne : toLowerStr k0 ≠ "createdTime".data :=
      toLowerStr_ne_of_upper (show 'T' ∈ "createdTime".data by decide)
        (by decide) (by decide)
    rw [hk0]
    simp [hne]

lemma mget_lastEdited (page : Page) :
    mget (extractMetadata page) "lastEditedTime".data =
      some (MetaValue.str (jsOrStr page.last_edited_time [])) := by
  simp only [extractMetadata, mget, List.reverse_append]
  rw [find?_append_none]
  · rfl
  · intro x hx
    rw [List.mem_reverse] at hx
    obtain ⟨k0, hk0⟩ := dyn_keys_lower hx
    have hne : toLowerStr k0 ≠ "lastEditedTime".data :=
      toLowerStr_ne_of_upper (show 'E' ∈ "lastEditedTime".data by decide)
        (by decide) (by decide)
    rw [hk0]
    simp [hne]

/-- A block whose type tag has no `case` arm in the source's `switch`. -/
def unknownBlock : Block := { id := [], type := "embed".data, payload := none }

/-- A bare text span with the given content and no annotations object. -/
def bareSpan (t : String) : RichText :=
  { type := "text".data, plain_text := some t.data, annotations := none }

/-- First concrete numbered-list item (text `a`). -/
def numBlockA : Block :=
  { id := [], type := "numbered_list_item".data,
    payload := some { emptyBlockData with rich_text := some [bareSpan "a"] } }

/-- Second concrete numbered-list item (text `b`). -/
def numBlockB : Block :=
  { id := [], type := "numbered_list_item".data,
    payload := some { emptyBlockData with rich_text := some [bareSpan "b"] } }

/-- A concrete image block with an uploaded-file URL and no caption. -/
def imgBlockW : Block :=
  { id := [], type := "image".data,
    payload := some { emptyBlockData with file := some { url := some "u".data } } }

/-- A page with no properties bag at all. -/
def noPropsPage : Page :=
  { created_time := none, last_edited_time := none, url := none,
    properties := none }

/-- A malformed `Name` property: present, but carrying no `title` field. -/
def malformedNamePV : PropValue :=
  { type := "select".data, title := none,
    select := some { name := some "x".data }, multi_select := none, date := none }

/-- A well-formed `Title` property with text `Fallback`. -/
def goodTitlePV : PropValue :=
  { type := "title".data, title := some [bareSpan "Fallback"],
    select := none, multi_select := none, date := none }

/-- A page holding both the malformed `Name` and the well-formed
`Title`. -/
def page9 : Page :=
  { created_time := none, last_edited_time := none, url := none,
    properties := some [("Name".data, malformedNamePV),
                        ("Title".data, goodTitlePV)] }

/-- A property declared `select` whose `select` payload is null — the shape
the Notion API sends for an empty select property. -/
def cexProp7 : PropValue :=
  { type := "select".data, title := none, select := none,
    multi_select := none, date := none }

/-- A page whose only property is the null-payload select `Tags`. -/
def cexPage7 : Page :=
  { created_time := none, last_edited_time := none, url := none,
    properties := some [("Tags".data, cexProp7)] }

/-- A select property named `Url` whose value is `x`. -/
def urlOverridePV : PropValue :=
  { type := "select".data, title := none,
    select := some { name := some "x".data }, multi_select := none, date := none }

/-- A page with a page-level URL `u` and a select property named `Url`. -/
def pageX : Page :=
  { created_time := some "c".data, last_edited_time := some "l".data,
    url := some "u".data,
    properties := some [("Url".data, urlOverridePV)] }

/-- C1 counterexample: on a span carrying both the bold and the code flag,
the renderer does NOT wrap in the claimed order (bold outermost, code
innermost); the actual output has the backticks outermost. -/
theorem claim_C1_counterexample :
    ¬(extractRichText [cexSpan] = ([cexSpan].map (fun t =>
      wrapClaimOrder (t.annotations.getD noAnnotations)
        (jsOrStr t.plain_text []))).flatten) := by
  decide

/-- C1 (amended): for every sequence of spans the renderer wraps each
span's plain text in the fixed nesting order code outermost, then
strikethrough, then italic, then bold innermost, and concatenates the
rendered spans in order. -/
theorem claim_C1_code_outermost : ∀ spans : List RichText,
    extractRichText spans = (spans.map (fun t =>
      wrapCodeOutermost (t.annotations.getD noAnnotations)
        (jsOrStr t.plain_text []))).flatten := by
  intro spans
  rfl

/-- C2: slugify is idempotent — applying it to its own output returns that
output unchanged, for every input string.  (Totality is inherent: `slugify`
is a total Lean function.) -/
theorem claim_C2_slugify_idempotent : ∀ s : Str,
    slugify (slugify s) = slugify s := by
  intro s
  exact slug_fixpoint (slugify s) (fun c hc => slug_chars hc) (slug_noDD s)
    (slug_head s) (slug_last s)

/-- C3: every character of a slug is a non-upper-case word character or a
hyphen; a slug never starts or ends with a hyphen; and the empty string is
a possible output, e.g. for the all-punctuation input `!?!`. -/
theorem claim_C3_slug_charset : ∀ s : Str,
    (∀ c ∈ slugify s,
      (jsIsWordChar c = true ∧ ¬(65 ≤ c.toNat ∧ c.toNat ≤ 90)) ∨ c = '-') ∧
    (slugify s).head? ≠ some '-' ∧
    (slugify s).getLast? ≠ some '-' ∧
    slugify "!?!".data = [] := by
  intro s
  refine ⟨?_, slug_head s, slug_last s, by decide⟩
  intro c hc
  have h := slug_chars hc
  by_cases he : c = '-'
  · exact Or.inr he
  · left
    have h45 : c.toNat ≠ 45 := by
      intro hq
      exact he (char_eq_of_toNat (show c.toNat = Char.toNat '-' from hq))
    simp only [outChar, Bool.or_eq_true, Bool.and_eq_true, decide_eq_true_eq] at h
    constructor
    · simp only [jsIsWordChar, Bool.or_eq_true, Bool.and_eq_true,
        decide_eq_true_eq]
      omega
    · omega

/-- C3 witness: the character `a` of `slugify "a!"` satisfies the charset
predicate. -/
theorem claim_C3_witness :
    (jsIsWordChar 'a' = true ∧ ¬(65 ≤ 'a'.toNat ∧ 'a'.toNat ≤ 90)) ∨ 'a' = '-' :=
  (claim_C3_slug_charset "a!".data).1 'a' (by decide)

/-- C4: a sequence of more than one numbered-list-item block renders with
the fixed prefix `1. ` on every item — no running counter exists, so no
item ever gets another ordinal. -/
theorem claim_C4_numbered_always_one : ∀ blocks : List Block,
    (∀ b ∈ blocks, b.type = "numbered_list_item".data) → 1 < blocks.length →
    processBlocks blocks = (blocks.map (fun b => "1. ".data ++
      extractRichText ((b.payload.getD emptyBlockData).rich_text.getD []) ++
      "\n".data)).flatten := by
  intro blocks hall _
  exact processBlocks_numbered blocks hall

/-- C4 witness: two consecutive numbered items both render with ordinal
`1.`. -/
theorem claim_C4_witness :
    processBlocks [numBlockA, numBlockB] = ([numBlockA, numBlockB].map
      (fun b => "1. ".data ++
        extractRichText ((b.payload.getD emptyBlockData).rich_text.getD []) ++
        "\n".data)).flatten ∧
    processBlocks [numBlockA, numBlockB] = "1. a\n1. b\n".data :=
  ⟨claim_C4_numbered_always_one [numBlockA, numBlockB] (by decide) (by decide),
   by decide⟩

/-- C5: a block whose type tag is outside the recognized enumeration
contributes the empty string, and rendering any block sequence equals
rendering the sequence with the unrecognized blocks removed.  (Totality is
inherent: `processBlocks` is a total Lean function.) -/
theorem claim_C5_unrecognized_skipped : ∀ blocks : List Block,
    processBlocks blocks =
      processBlocks (blocks.filter (fun b => recognizedType b.type)) ∧
    ∀ b : Block, recognizedType b.type = false → renderBlock b = [] := by
  intro blocks
  exact ⟨processBlocks_filter blocks, fun b hb => renderBlock_unrecognized hb⟩

/-- C5 witness: the unrecognized `embed` block contributes the empty
string. -/
theorem claim_C5_witness : renderBlock unknownBlock = [] :=
  (claim_C5_unrecognized_skipped []).2 unknownBlock (by decide)

/-- C6: a page lacking both a `Name` and a `Title` property (including a
page with no properties bag at all) gets the literal title `Untitled`.
(Title extraction is a total Lean function, so it never fails.) -/
theorem claim_C6_untitled_default : ∀ page : Page,
    lookupProp (page.properties.getD []) "Name".data = none →
    lookupProp (page.properties.getD []) "Title".data = none →
    extractTitle page = "Untitled".data := by
  intro page h1 h2
  simp [extractTitle, jsOrProp, h1, h2]

/-- C6 witness: the page with no properties bag at all is titled
`Untitled`. -/
theorem claim_C6_witness : extractTitle noPropsPage = "Untitled".data :=
  claim_C6_untitled_default noPropsPage (by decide) (by decide)

/-- C7 counterexample: on a page whose only property is declared `select`
but has a null `select` payload, the code writes NO `tags` field, while
the claim (formalised as `extractMetadataClaim`) requires one. -/
theorem claim_C7_counterexample :
    extractMetadata cexPage7 ≠ extractMetadataClaim cexPage7 ∧
    mget (extractMetadata cexPage7) "tags".data = none ∧
    mget (extractMetadataClaim cexPage7) "tags".data ≠ none := by
  decide

/-- C7 (amended): metadata extraction populates the three fixed fields
from the page-level fields (empty string when missing) and then writes one
dynamically keyed field per select / multi_select / date entry WHOSE
SAME-NAMED PAYLOAD IS PRESENT; entries of other declared types, or with a
null payload, contribute no field. -/
theorem claim_C7_metadata_amended : ∀ page : Page,
    extractMetadata page = extractMetadataAmended page := by
  intro page
  rw [extractMetadata, extractMetadataAmended]
  simp only [propEntries_eq_spec]

/-- C8: an image block contributes `![caption](url)` plus a blank line
exactly when a URL is resolvable (uploaded-file URL preferred, external
URL as fallback); with neither URL it contributes the empty string. -/
theorem claim_C8_image_iff_url : ∀ b : Block, b.type = "image".data →
    (∀ u, resolveImageUrl (b.payload.getD emptyBlockData) = some u →
      processBlocks [b] = "![".data ++
        extractRichText ((b.payload.getD emptyBlockData).caption.getD []) ++
        "](".data ++ u ++ ")".data ++ "\n\n".data) ∧
    (resolveImageUrl (b.payload.getD emptyBlockData) = none →
      processBlocks [b] = []) := by
  intro b hb
  have h := renderBlock_image hb
  have hp : processBlocks [b] = renderBlock b := by
    rw [processBlocks_cons]
    rw [show processBlocks [] = [] from rfl, List.append_nil]
  constructor
  · intro u hu
    rw [hp, h, hu]
  · intro hu
    rw [hp, h, hu]

/-- C8 witness: a concrete image block with an uploaded-file URL renders
the image fragment. -/
theorem claim_C8_witness : processBlocks [imgBlockW] = "![](u)\n\n".data := by
  rw [(claim_C8_image_iff_url imgBlockW rfl).1 "u".data (by decide)]
  decide

/-- C9: when the `Name` property is present but carries no `title` field,
title extraction returns `Untitled` without falling back to the `Title`
property. -/
theorem claim_C9_malformed_name_untitled : ∀ (page : Page) (tp : PropValue),
    lookupProp (page.properties.getD []) "Name".data = some tp →
    tp.title = none →
    extractTitle page = "Untitled".data := by
  intro page tp h1 h2
  simp [extractTitle, jsOrProp, h1, h2]

/-- C9 witness: a page with a malformed `Name` and a well-formed `Title`
(text `Fallback`) is titled `Untitled`, not `Fallback`. -/
theorem claim_C9_witness :
    extractTitle page9 = "Untitled".data ∧ "Untitled".data ≠ "Fallback".data :=
  ⟨claim_C9_malformed_name_untitled page9 malformedNamePV (by decide) rfl,
   by decide⟩

/-- C10: a select property named `Url` overwrites the `url` field that was
populated from the page-level URL (shown on the concrete page `pageX`,
where the final `url` is the property value `x`, not the page-level `u`),
while `createdTime` and `lastEditedTime` always equal the page-level values
on EVERY page, because dynamic keys are lower-cased and those fixed keys
contain upper-case letters. -/
theorem claim_C10_url_overwrite :
    mget (extractMetadata pageX) "url".data = some (MetaValue.str "x".data) ∧
    MetaValue.str "x".data ≠ MetaValue.str (jsOrStr pageX.url []) ∧
    (∀ page : Page,
      mget (extractMetadata page) "createdTime".data =
        some (MetaValue.str (jsOrStr page.created_time [])) ∧
      mget (extractMetadata page) "lastEditedTime".data =
        some (MetaValue.str (jsOrStr page.last_edited_time []))) :=
  ⟨by decide, by decide,
   fun page => ⟨mget_created page, mget_lastEdited page⟩⟩

end SSG
